import Mathlib

/-!
Verification of the governance-as-code core: the policy decision engine
(deny short-circuits, allow accumulates, default deny), the exhaustive
compliance checker, and the JSON projector's string escaping.

The definitions below are a shallow embedding of the C++ sources
(`src/policy_engine.cpp`, `src/compliance.cpp`, `include/governance/json.hpp`,
`include/governance/types.hpp`, `include/governance/policy_engine.hpp`,
`include/governance/compliance.hpp`): `std::string` becomes `String`,
`std::vector` becomes `List`, `std::optional` becomes `Option`,
`std::function` becomes a Lean function field, and the `unordered_map`
of resource tags becomes a list of key/value pairs.
-/

namespace governance

/-- `governance::Effect` from types.hpp: strictly binary. -/
inductive Effect : Type
  | Allow : Effect
  | Deny : Effect
  deriving DecidableEq, Repr

/-- `governance::Principal` from types.hpp. -/
structure Principal : Type where
  id : String
  role : String
  department : String
  deriving DecidableEq, Repr

/-- `governance::Resource` from types.hpp; the tag map is embedded as a
list of key/value pairs. -/
structure Resource : Type where
  id : String
  type : String
  classification : String
  tags : List (String × String)
  deriving DecidableEq, Repr

/-- `governance::Action` from types.hpp. -/
structure Action : Type where
  verb : String
  deriving DecidableEq, Repr

/-- `governance::RequestContext` from types.hpp. -/
structure RequestContext : Type where
  principal : Principal
  resource : Resource
  action : Action
  environment : String
  mfa_verified : Bool
  deriving DecidableEq, Repr

/-- `governance::PolicyDecision` from types.hpp. -/
structure PolicyDecision : Type where
  effect : Effect
  policy_name : String
  reason : String
  deriving DecidableEq, Repr

/-- `governance::Policy` from policy_engine.hpp: a named rule whose
`evaluate` returns a decision or abstains (`std::optional`). -/
structure Policy : Type where
  name : String
  version : String
  author : String
  description : String
  evaluate : RequestContext → Option PolicyDecision

/-- `governance::StepOutcome` from policy_engine.hpp. -/
inductive StepOutcome : Type
  | Allow : StepOutcome
  | Deny : StepOutcome
  | Abstain : StepOutcome
  deriving DecidableEq, Repr

/-- `governance::PolicyStep` from policy_engine.hpp. -/
structure PolicyStep : Type where
  policy_name : String
  outcome : StepOutcome
  reason : String
  deriving DecidableEq, Repr

/-- `governance::EvaluationTrace` from policy_engine.hpp. -/
structure EvaluationTrace : Type where
  context : RequestContext
  steps : List PolicyStep

/-- `governance::EvaluationResult` from policy_engine.hpp. -/
structure EvaluationResult : Type where
  decision : PolicyDecision
  trace : EvaluationTrace

/-- `governance::PolicyEngine` from policy_engine.hpp: an ordered list of
registered policies. -/
structure PolicyEngine : Type where
  policies : List Policy

/-- `PolicyEngine::register_policy` from policy_engine.cpp: appends to the
ordered list (`push_back`). -/
def PolicyEngine.register_policy (e : PolicyEngine) (p : Policy) : PolicyEngine :=
  { policies := e.policies ++ [p] }

/-- The default decision built in `PolicyEngine::evaluate`
(policy_engine.cpp line 36). -/
def default_deny : PolicyDecision :=
  { effect := Effect.Deny
    policy_name := "default"
    reason := "No policy explicitly granted access." }

/-- The loop of `PolicyEngine::evaluate` (policy_engine.cpp lines 16-37) as
explicit state passing: the remaining policies, the trace steps built so
far, and the `first_allow` register. Returns the final decision paired
with the final step list. -/
def PolicyEngine.evalLoop (ctx : RequestContext) :
    List Policy → List PolicyStep → Option PolicyDecision →
      PolicyDecision × List PolicyStep
  | [], steps, first_allow => (first_allow.getD default_deny, steps)
  | p :: rest, steps, first_allow =>
    match p.evaluate ctx with
    | none =>
      PolicyEngine.evalLoop ctx rest
        (steps ++ [{ policy_name := p.name, outcome := StepOutcome.Abstain, reason := "" }])
        first_allow
    | some d =>
      if d.effect = Effect.Deny then
        (d, steps ++ [{ policy_name := p.name, outcome := StepOutcome.Deny, reason := d.reason }])
      else
        PolicyEngine.evalLoop ctx rest
          (steps ++ [{ policy_name := p.name, outcome := StepOutcome.Allow, reason := d.reason }])
          (match first_allow with
           | some fa => some fa
           | none => some d)

/-- `PolicyEngine::evaluate` from policy_engine.cpp: snapshots the context
into the trace, runs the loop over the registered policies with an empty
step list and no `first_allow`. -/
def PolicyEngine.evaluate (e : PolicyEngine) (ctx : RequestContext) : EvaluationResult :=
  let r := PolicyEngine.evalLoop ctx e.policies [] none
  { decision := r.1, trace := { context := ctx, steps := r.2 } }

/-- The trace step recorded for an abstaining policy. -/
def abstainStep (p : Policy) : PolicyStep :=
  { policy_name := p.name, outcome := StepOutcome.Abstain, reason := "" }

/-- The trace step recorded for a policy under the no-deny hypothesis:
abstention or an Allow step carrying the decision's reason. -/
def stepOf (ctx : RequestContext) (p : Policy) : PolicyStep :=
  match p.evaluate ctx with
  | none => abstainStep p
  | some d => { policy_name := p.name, outcome := StepOutcome.Allow, reason := d.reason }


-- ── Built-in policies (policy_engine.cpp lines 41-139) ───────────────────

/-- `governance::admin_full_access` from policy_engine.cpp. -/
def admin_full_access : Policy :=
  { name := "AdminFullAccess"
    version := "1.0"
    author := "governance-team"
    description := "Grants unrestricted access to all principals with the admin role."
    evaluate := fun ctx =>
      if ctx.principal.role = "admin" then
        some { effect := Effect.Allow, policy_name := "AdminFullAccess"
               reason := "Admin role has unrestricted access." }
      else none }

/-- `governance::mfa_required_for_restricted` from policy_engine.cpp. -/
def mfa_required_for_restricted : Policy :=
  { name := "MFARequiredForRestricted"
    version := "1.0"
    author := "governance-team"
    description := "Denies access to restricted resources when MFA has not been verified."
    evaluate := fun ctx =>
      if ctx.resource.classification = "restricted" ∧ ctx.mfa_verified = false then
        some { effect := Effect.Deny, policy_name := "MFARequiredForRestricted"
               reason := "MFA required to access restricted resources." }
      else none }

/-- `governance::production_immutability` from policy_engine.cpp. -/
def production_immutability : Policy :=
  { name := "ProductionImmutability"
    version := "1.0"
    author := "governance-team"
    description := "Prevents non-admin principals from writing or deleting in production."
    evaluate := fun ctx =>
      if ctx.environment = "production" ∧ ctx.principal.role ≠ "admin" ∧
          (ctx.action.verb = "write" ∨ ctx.action.verb = "delete") then
        some { effect := Effect.Deny, policy_name := "ProductionImmutability"
               reason := "Write/delete operations require admin role in production." }
      else none }

/-- `governance::analyst_read_only` from policy_engine.cpp. -/
def analyst_read_only : Policy :=
  { name := "AnalystReadOnly"
    version := "1.0"
    author := "governance-team"
    description := "Restricts analysts to read-only access on non-sensitive resources."
    evaluate := fun ctx =>
      if ctx.principal.role ≠ "analyst" then none
      else if ctx.action.verb ≠ "read" then
        some { effect := Effect.Deny, policy_name := "AnalystReadOnly"
               reason := "Analysts are limited to read-only access." }
      else if ctx.resource.classification = "restricted" ∨
          ctx.resource.classification = "confidential" then
        some { effect := Effect.Deny, policy_name := "AnalystReadOnly"
               reason := "Analysts cannot access confidential or restricted data." }
      else
        some { effect := Effect.Allow, policy_name := "AnalystReadOnly"
               reason := "Analyst read access on non-sensitive resource allowed." } }

/-- `governance::engineer_access` from policy_engine.cpp. -/
def engineer_access : Policy :=
  { name := "EngineerAccess"
    version := "1.0"
    author := "governance-team"
    description := "Grants engineers full access in dev/staging and read-only in production."
    evaluate := fun ctx =>
      if ctx.principal.role ≠ "engineer" then none
      else if ctx.resource.classification = "restricted" then none
      else if ctx.environment = "dev" ∨ ctx.environment = "staging" then
        some { effect := Effect.Allow, policy_name := "EngineerAccess"
               reason := "Engineers have full access in non-production environments." }
      else if ctx.environment = "production" ∧ ctx.action.verb = "read" then
        some { effect := Effect.Allow, policy_name := "EngineerAccess"
               reason := "Engineers can read production resources." }
      else none }

/-- `governance::default_policy_engine` from policy_engine.cpp: registers the
five built-in policies in order. -/
def default_policy_engine : PolicyEngine :=
  (((((PolicyEngine.mk []).register_policy admin_full_access).register_policy
      mfa_required_for_restricted).register_policy
      production_immutability).register_policy
      analyst_read_only).register_policy
      engineer_access

-- ── Compliance checker (compliance.cpp, compliance.hpp) ──────────────────

/-- `governance::ComplianceRule` from compliance.hpp. -/
structure ComplianceRule : Type where
  name : String
  version : String
  author : String
  description : String
  check : Resource → Bool

/-- `governance::ComplianceReport` from compliance.hpp. -/
structure ComplianceReport : Type where
  resource_id : String
  violations : List String
  deriving DecidableEq, Repr

/-- `ComplianceReport::compliant` from compliance.hpp: `violations.empty()`. -/
def ComplianceReport.compliant (r : ComplianceReport) : Bool :=
  r.violations.isEmpty

/-- `governance::ComplianceChecker` from compliance.hpp: an ordered list of
registered rules. -/
structure ComplianceChecker : Type where
  rules : List ComplianceRule

/-- `ComplianceChecker::add_rule` from compliance.cpp: appends (`push_back`). -/
def ComplianceChecker.add_rule (c : ComplianceChecker) (r : ComplianceRule) : ComplianceChecker :=
  { rules := c.rules ++ [r] }

/-- The formatted violation string `"[name] description"` appended by
`ComplianceChecker::evaluate` (compliance.cpp line 17). -/
def violationText (rule : ComplianceRule) : String :=
  "[" ++ rule.name ++ "] " ++ rule.description

/-- The loop of `ComplianceChecker::evaluate` (compliance.cpp lines 15-19) as
explicit state passing over the accumulated violation list. -/
def ComplianceChecker.evalLoop (resource : Resource) :
    List ComplianceRule → List String → List String
  | [], violations => violations
  | rule :: rest, violations =>
    if rule.check resource then
      ComplianceChecker.evalLoop resource rest violations
    else
      ComplianceChecker.evalLoop resource rest (violations ++ [violationText rule])

/-- `ComplianceChecker::evaluate` from compliance.cpp: records the resource id
and runs every registered rule. -/
def ComplianceChecker.evaluate (c : ComplianceChecker) (resource : Resource) : ComplianceReport :=
  { resource_id := resource.id
    violations := ComplianceChecker.evalLoop resource c.rules [] }

-- ── JSON projector escaping (json.hpp lines 13-27) ───────────────────────

namespace json_detail

/-- One iteration of the `switch` in `json_detail::escape` (json.hpp): the
characters appended for a single input character. -/
def escapeChar (c : Char) : List Char :=
  if c = '"' then ['\\', '"']
  else if c = '\\' then ['\\', '\\']
  else if c = '\n' then ['\\', 'n']
  else if c = '\r' then ['\\', 'r']
  else if c = '\t' then ['\\', 't']
  else [c]

/-- The loop of `json_detail::escape` over the characters of the input. -/
def escapeList : List Char → List Char
  | [] => []
  | c :: cs => escapeChar c ++ escapeList cs

/-- `json_detail::escape` from json.hpp, lifted to `String`. -/
def escape (s : String) : String :=
  String.mk (escapeList s.data)

/-- Inverse of the two-character escape sequences: the character encoded by
the character following a backslash. -/
def unescapeChar (c : Char) : Char :=
  if c = 'n' then '\n'
  else if c = 'r' then '\r'
  else if c = 't' then '\t'
  else c

/-- Inverse of `escapeList`: a backslash followed by a character decodes via
`unescapeChar`; any other character passes through. -/
def unescapeList : List Char → List Char
  | [] => []
  | [c] => [c]
  | c :: d :: rest =>
    if c = '\\' then unescapeChar d :: unescapeList rest
    else c :: unescapeList (d :: rest)

/-- Inverse of `escape`, lifted to `String`. -/
def unescape (s : String) : String :=
  String.mk (unescapeList s.data)

end json_detail

-- ── Concrete fixtures for witnesses and counterexamples ──────────────────

/-- A concrete request context: a guest reading internal storage in dev. -/
def ctxSample : RequestContext :=
  { principal := { id := "u1", role := "guest", department := "ops" }
    resource := { id := "r1", type := "storage", classification := "internal"
                  tags := [("owner", "ops")] }
    action := { verb := "read" }
    environment := "dev"
    mfa_verified := false }

/-- A concrete request context: an admin touching a restricted resource
without MFA. -/
def ctxAdminRestricted : RequestContext :=
  { principal := { id := "u2", role := "admin", department := "it" }
    resource := { id := "r2", type := "database", classification := "restricted"
                  tags := [("owner", "it")] }
    action := { verb := "read" }
    environment := "production"
    mfa_verified := false }

/-- A host-supplied policy that always abstains. -/
def pAbstain : Policy :=
  { name := "AbstainPol", version := "1.0", author := "host"
    description := "always abstains"
    evaluate := fun _ => none }

/-- A host-supplied policy that always denies under its registered name. -/
def pDeny : Policy :=
  { name := "DenyPol", version := "1.0", author := "host"
    description := "always denies"
    evaluate := fun _ =>
      some { effect := Effect.Deny, policy_name := "DenyPol", reason := "denied" } }

/-- A host-supplied policy that always allows under its registered name. -/
def pAllow : Policy :=
  { name := "AllowPol", version := "1.0", author := "host"
    description := "always allows"
    evaluate := fun _ =>
      some { effect := Effect.Allow, policy_name := "AllowPol", reason := "allowed" } }

/-- A host-supplied policy that allows with an empty reason string. -/
def pEmptyReason : Policy :=
  { name := "EmptyReasonPol", version := "1.0", author := "host"
    description := "allows with an empty reason"
    evaluate := fun _ =>
      some { effect := Effect.Allow, policy_name := "EmptyReasonPol", reason := "" } }

/-- A host-supplied policy whose returned decision self-reports a name
different from its registered name. -/
def pMismatch : Policy :=
  { name := "Registered", version := "1.0", author := "host"
    description := "denies under a different self-reported name"
    evaluate := fun _ =>
      some { effect := Effect.Deny, policy_name := "Mismatched", reason := "mismatch reason" } }

-- ── Loop lemmas ──────────────────────────────────────────────────────────

lemma evalLoop_skip_abstains (ctx : RequestContext) (abst ps : List Policy)
    (steps : List PolicyStep) (fa : Option PolicyDecision)
    (h : ∀ p ∈ abst, p.evaluate ctx = none) :
    PolicyEngine.evalLoop ctx (abst ++ ps) steps fa =
      PolicyEngine.evalLoop ctx ps (steps ++ abst.map abstainStep) fa := by
  induction abst generalizing steps with
  | nil => simp
  | cons p rest ih =>
    have hp : p.evaluate ctx = none := h p (List.mem_cons_self p rest)
    have hrest : ∀ q ∈ rest, q.evaluate ctx = none := fun q hq => h q (List.mem_cons_of_mem p hq)
    simp only [List.cons_append, PolicyEngine.evalLoop, hp, List.map_cons, List.append_eq]
    rw [ih _ hrest]
    simp [abstainStep]

lemma evalLoop_deny_head (ctx : RequestContext) (p : Policy) (rest : List Policy)
    (steps : List PolicyStep) (fa : Option PolicyDecision) (d : PolicyDecision)
    (hp : p.evaluate ctx = some d) (hd : d.effect = Effect.Deny) :
    PolicyEngine.evalLoop ctx (p :: rest) steps fa =
      (d, steps ++ [{ policy_name := p.name, outcome := StepOutcome.Deny, reason := d.reason }]) := by
  simp [PolicyEngine.evalLoop, hp, hd]

lemma evalLoop_steps_no_deny (ctx : RequestContext) (ps : List Policy)
    (steps : List PolicyStep) (fa : Option PolicyDecision)
    (h : ∀ p ∈ ps, ∀ d, p.evaluate ctx = some d → d.effect ≠ Effect.Deny) :
    (PolicyEngine.evalLoop ctx ps steps fa).2 = steps ++ ps.map (stepOf ctx) := by
  induction ps generalizing steps fa with
  | nil => simp [PolicyEngine.evalLoop]
  | cons p rest ih =>
    have hrest : ∀ q ∈ rest, ∀ d, q.evaluate ctx = some d → d.effect ≠ Effect.Deny :=
      fun q hq => h q (List.mem_cons_of_mem p hq)
    cases hp : p.evaluate ctx with
    | none =>
      simp only [PolicyEngine.evalLoop, hp]
      rw [ih _ _ hrest]
      simp [stepOf, abstainStep, hp]
    | some d =>
      have hnd : d.effect ≠ Effect.Deny := h p (List.mem_cons_self p rest) d hp
      simp only [PolicyEngine.evalLoop, hp, if_neg hnd]
      rw [ih _ _ hrest]
      simp [stepOf, hp]

lemma evalLoop_fst_of_some (ctx : RequestContext) (ps : List Policy)
    (steps : List PolicyStep) (x : PolicyDecision)
    (h : ∀ p ∈ ps, ∀ d, p.evaluate ctx = some d → d.effect ≠ Effect.Deny) :
    (PolicyEngine.evalLoop ctx ps steps (some x)).1 = x := by
  induction ps generalizing steps with
  | nil => simp [PolicyEngine.evalLoop]
  | cons p rest ih =>
    have hrest : ∀ q ∈ rest, ∀ d, q.evaluate ctx = some d → d.effect ≠ Effect.Deny :=
      fun q hq => h q (List.mem_cons_of_mem p hq)
    cases hp : p.evaluate ctx with
    | none =>
      simp only [PolicyEngine.evalLoop, hp]
      exact ih _ hrest
    | some d =>
      have hnd : d.effect ≠ Effect.Deny := h p (List.mem_cons_self p rest) d hp
      simp only [PolicyEngine.evalLoop, hp, if_neg hnd]
      exact ih _ hrest

lemma evalLoop_first_deny_mixed (ctx : RequestContext) (pre : List Policy)
    (p : Policy) (rest : List Policy) (steps : List PolicyStep)
    (fa : Option PolicyDecision) (d : PolicyDecision)
    (hpre : ∀ q ∈ pre, ∀ dd, q.evaluate ctx = some dd → dd.effect ≠ Effect.Deny)
    (hp : p.evaluate ctx = some d) (hden : d.effect = Effect.Deny) :
    PolicyEngine.evalLoop ctx (pre ++ p :: rest) steps fa =
      (d, steps ++ pre.map (stepOf ctx) ++
        [{ policy_name := p.name, outcome := StepOutcome.Deny, reason := d.reason }]) := by
  induction pre generalizing steps fa with
  | nil =>
    rw [List.nil_append, evalLoop_deny_head ctx p rest steps fa d hp hden]
    simp
  | cons q pre2 ih =>
    have hq_rest : ∀ r ∈ pre2, ∀ dd, r.evaluate ctx = some dd → dd.effect ≠ Effect.Deny :=
      fun r hr => hpre r (List.mem_cons_of_mem q hr)
    cases hq : q.evaluate ctx with
    | none =>
      simp only [List.cons_append, PolicyEngine.evalLoop, hq, List.append_eq]
      rw [ih _ _ hq_rest]
      simp [stepOf, abstainStep, hq, List.append_assoc]
    | some dd =>
      have hnd : dd.effect ≠ Effect.Deny := hpre q (List.mem_cons_self q pre2) dd hq
      simp only [List.cons_append, PolicyEngine.evalLoop, hq, if_neg hnd, List.append_eq]
      rw [ih _ _ hq_rest]
      simp [stepOf, hq, List.append_assoc]

lemma policies_split (e : PolicyEngine) (i : Nat) (hi : i < e.policies.length) :
    e.policies = e.policies.take i ++ e.policies[i] :: e.policies.drop (i + 1) := by
  conv_lhs => rw [← List.take_append_drop i e.policies, List.drop_eq_getElem_cons hi]

lemma evaluate_first_deny_core (e : PolicyEngine) (ctx : RequestContext) (i : Nat)
    (d : PolicyDecision) (hi : i < e.policies.length)
    (hpre : ∀ p ∈ e.policies.take i, p.evaluate ctx = none)
    (hd : (e.policies[i]).evaluate ctx = some d)
    (hden : d.effect = Effect.Deny) :
    (e.evaluate ctx).decision = d ∧
    (e.evaluate ctx).trace.steps =
      (e.policies.take i).map abstainStep ++
        [{ policy_name := (e.policies[i]).name, outcome := StepOutcome.Deny, reason := d.reason }] ∧
    e.evaluate ctx = PolicyEngine.evaluate { policies := e.policies.take (i + 1) } ctx := by
  have hloop : PolicyEngine.evalLoop ctx e.policies [] none =
      (d, (e.policies.take i).map abstainStep ++
        [{ policy_name := (e.policies[i]).name, outcome := StepOutcome.Deny, reason := d.reason }]) := by
    conv_lhs => rw [policies_split e i hi]
    rw [evalLoop_skip_abstains _ _ _ _ _ hpre, evalLoop_deny_head _ _ _ _ _ _ hd hden]
    simp
  have htake : e.policies.take (i + 1) = e.policies.take i ++ [e.policies[i]] := by
    rw [List.take_succ]
    simp [List.getElem?_eq_getElem hi]
  have hloop2 : PolicyEngine.evalLoop ctx (e.policies.take (i + 1)) [] none =
      (d, (e.policies.take i).map abstainStep ++
        [{ policy_name := (e.policies[i]).name, outcome := StepOutcome.Deny, reason := d.reason }]) := by
    rw [htake, evalLoop_skip_abstains _ _ _ _ _ hpre, evalLoop_deny_head _ _ _ _ _ _ hd hden]
    simp
  refine ⟨?_, ?_, ?_⟩
  · simp [PolicyEngine.evaluate, hloop]
  · simp [PolicyEngine.evaluate, hloop]
  · simp [PolicyEngine.evaluate, hloop, hloop2]

lemma evaluate_first_allow_core (e : PolicyEngine) (ctx : RequestContext) (i : Nat)
    (d : PolicyDecision) (hi : i < e.policies.length)
    (hnd : ∀ p ∈ e.policies, ∀ dd, p.evaluate ctx = some dd → dd.effect ≠ Effect.Deny)
    (hpre : ∀ p ∈ e.policies.take i, p.evaluate ctx = none)
    (hd : (e.policies[i]).evaluate ctx = some d) :
    (e.evaluate ctx).decision = d ∧
    (e.evaluate ctx).trace.steps = e.policies.map (stepOf ctx) ∧
    (e.evaluate ctx).trace.steps.length = e.policies.length := by
  have hsteps : (PolicyEngine.evalLoop ctx e.policies [] none).2 =
      e.policies.map (stepOf ctx) := by
    rw [evalLoop_steps_no_deny _ _ _ _ hnd]
    simp
  have hmem : e.policies[i] ∈ e.policies := List.getElem_mem hi
  have hnd_i : d.effect ≠ Effect.Deny := hnd _ hmem d hd
  have hdrop : ∀ q ∈ e.policies.drop (i + 1), ∀ dd,
      q.evaluate ctx = some dd → dd.effect ≠ Effect.Deny :=
    fun q hq => hnd q (List.mem_of_mem_drop hq)
  have hfst : (PolicyEngine.evalLoop ctx e.policies [] none).1 = d := by
    conv_lhs => rw [policies_split e i hi]
    rw [evalLoop_skip_abstains _ _ _ _ _ hpre]
    simp only [PolicyEngine.evalLoop, hd, if_neg hnd_i]
    exact evalLoop_fst_of_some ctx _ _ d hdrop
  refine ⟨?_, ?_, ?_⟩
  · simp [PolicyEngine.evaluate, hfst]
  · simp [PolicyEngine.evaluate, hsteps]
  · simp [PolicyEngine.evaluate, hsteps]

lemma evaluate_all_abstain_core (e : PolicyEngine) (ctx : RequestContext)
    (h : ∀ p ∈ e.policies, p.evaluate ctx = none) :
    e.evaluate ctx =
      { decision := default_deny
        trace := { context := ctx, steps := e.policies.map abstainStep } } := by
  have hloop : PolicyEngine.evalLoop ctx e.policies [] none =
      (default_deny, e.policies.map abstainStep) := by
    have := evalLoop_skip_abstains ctx e.policies [] [] none h
    simpa [PolicyEngine.evalLoop] using this
  simp [PolicyEngine.evaluate, hloop]

lemma evalLoop_deny_invariant (ctx : RequestContext) (ps : List Policy)
    (steps : List PolicyStep) (fa : Option PolicyDecision)
    (hsteps : ∀ s ∈ steps, s.outcome ≠ StepOutcome.Deny) :
    (∀ s ∈ (PolicyEngine.evalLoop ctx ps steps fa).2.dropLast, s.outcome ≠ StepOutcome.Deny) ∧
    (∀ s ∈ (PolicyEngine.evalLoop ctx ps steps fa).2, s.outcome = StepOutcome.Deny →
      (PolicyEngine.evalLoop ctx ps steps fa).2.getLast? = some s ∧
      (PolicyEngine.evalLoop ctx ps steps fa).1.effect = Effect.Deny) := by
  induction ps generalizing steps fa with
  | nil =>
    refine ⟨fun s hs => hsteps s (List.dropLast_subset _ hs), fun s hs hden => ?_⟩
    exact absurd hden (hsteps s hs)
  | cons p rest ih =>
    cases hp : p.evaluate ctx with
    | none =>
      simp only [PolicyEngine.evalLoop, hp]
      refine ih _ _ (fun s hs => ?_)
      rcases List.mem_append.mp hs with h | h
      · exact hsteps s h
      · simp only [List.mem_singleton] at h
        subst h
        simp
    | some d =>
      by_cases hden : d.effect = Effect.Deny
      · simp only [PolicyEngine.evalLoop, hp, if_pos hden]
        constructor
        · intro s hs
          rw [List.dropLast_concat] at hs
          exact hsteps s hs
        · intro s hs _hd
          rcases List.mem_append.mp hs with h | h
          · exact absurd _hd (hsteps s h)
          · simp only [List.mem_singleton] at h
            subst h
            exact ⟨List.getLast?_concat _, hden⟩
      · simp only [PolicyEngine.evalLoop, hp, if_neg hden]
        refine ih _ _ (fun s hs => ?_)
        rcases List.mem_append.mp hs with h | h
        · exact hsteps s h
        · simp only [List.mem_singleton] at h
          subst h
          simp

lemma evalLoop_abstain_reason (ctx : RequestContext) (ps : List Policy)
    (steps : List PolicyStep) (fa : Option PolicyDecision)
    (hsteps : ∀ s ∈ steps, s.outcome = StepOutcome.Abstain → s.reason = "") :
    ∀ s ∈ (PolicyEngine.evalLoop ctx ps steps fa).2,
      s.outcome = StepOutcome.Abstain → s.reason = "" := by
  induction ps generalizing steps fa with
  | nil => exact hsteps
  | cons p rest ih =>
    cases hp : p.evaluate ctx with
    | none =>
      simp only [PolicyEngine.evalLoop, hp]
      refine ih _ _ (fun s hs habs => ?_)
      rcases List.mem_append.mp hs with h | h
      · exact hsteps s h habs
      · simp only [List.mem_singleton] at h
        subst h
        rfl
    | some d =>
      by_cases hden : d.effect = Effect.Deny
      · simp only [PolicyEngine.evalLoop, hp, if_pos hden]
        intro s hs habs
        rcases List.mem_append.mp hs with h | h
        · exact hsteps s h habs
        · simp only [List.mem_singleton] at h
          subst h
          simp at habs
      · simp only [PolicyEngine.evalLoop, hp, if_neg hden]
        refine ih _ _ (fun s hs habs => ?_)
        rcases List.mem_append.mp hs with h | h
        · exact hsteps s h habs
        · simp only [List.mem_singleton] at h
          subst h
          simp at habs

lemma countP_le_one_of_dropLast {α : Type} (l : List α) (q : α → Bool)
    (h : ∀ s ∈ l.dropLast, ¬ q s) : l.countP q ≤ 1 := by
  cases hl : l.eq_nil_or_concat with
  | inl hnil => simp [hnil]
  | inr hcc =>
    rcases hcc with ⟨l2, a, rfl⟩
    rw [List.concat_eq_append] at h ⊢
    rw [List.countP_append]
    have h2 : l2.countP q = 0 := by
      rw [List.countP_eq_zero]
      intro s hs
      exact h s (by simpa [List.dropLast_concat] using hs)
    rw [h2]
    simp [List.countP_cons]
    by_cases hq : q a <;> simp [hq]


lemma complianceEvalLoop_eq (resource : Resource) (rules : List ComplianceRule)
    (acc : List String) :
    ComplianceChecker.evalLoop resource rules acc =
      acc ++ (rules.filter (fun rule => ! rule.check resource)).map violationText := by
  induction rules generalizing acc with
  | nil => simp [ComplianceChecker.evalLoop]
  | cons rule rest ih =>
    cases hc : rule.check resource with
    | true =>
      simp only [ComplianceChecker.evalLoop, hc, if_pos]
      rw [ih]
      simp [List.filter_cons, hc]
    | false =>
      simp only [ComplianceChecker.evalLoop, hc]
      rw [ih (acc ++ [violationText rule])]
      rw [List.filter_cons]
      simp only [hc, Bool.not_false, if_pos, List.map_cons]
      rw [List.append_assoc]
      rfl

namespace json_detail

lemma unescapeList_backslash (d : Char) (rest : List Char) :
    unescapeList ('\\' :: d :: rest) = unescapeChar d :: unescapeList rest := by
  simp [unescapeList]

lemma unescapeList_other {c : Char} (h : c ≠ '\\') (cs : List Char) :
    unescapeList (c :: cs) = c :: unescapeList cs := by
  cases cs with
  | nil => rfl
  | cons d rest => simp [unescapeList, h]

lemma unescapeList_escapeList (s : List Char) :
    unescapeList (escapeList s) = s := by
  induction s with
  | nil => rfl
  | cons c cs ih =>
    show unescapeList (escapeChar c ++ escapeList cs) = c :: cs
    by_cases h1 : c = '"'
    · subst h1
      rw [show escapeChar '"' ++ escapeList cs = '\\' :: '"' :: escapeList cs from rfl]
      rw [unescapeList_backslash]
      rw [show unescapeChar '"' = '"' from rfl, ih]
    · by_cases h2 : c = '\\'
      · subst h2
        rw [show escapeChar '\\' ++ escapeList cs = '\\' :: '\\' :: escapeList cs from rfl]
        rw [unescapeList_backslash]
        rw [show unescapeChar '\\' = '\\' from rfl, ih]
      · by_cases h3 : c = '\n'
        · subst h3
          rw [show escapeChar '\n' ++ escapeList cs = '\\' :: 'n' :: escapeList cs from rfl]
          rw [unescapeList_backslash]
          rw [show unescapeChar 'n' = '\n' from rfl, ih]
        · by_cases h4 : c = '\r'
          · subst h4
            rw [show escapeChar '\r' ++ escapeList cs = '\\' :: 'r' :: escapeList cs from rfl]
            rw [unescapeList_backslash]
            rw [show unescapeChar 'r' = '\r' from rfl, ih]
          · by_cases h5 : c = '\t'
            · subst h5
              rw [show escapeChar '\t' ++ escapeList cs = '\\' :: 't' :: escapeList cs from rfl]
              rw [unescapeList_backslash]
              rw [show unescapeChar 't' = '\t' from rfl, ih]
            · have he : escapeChar c = [c] := by
                simp [escapeChar, h1, h2, h3, h4, h5]
              rw [he, List.singleton_append, unescapeList_other h2, ih]

lemma unescape_escape (s : String) : unescape (escape s) = s := by
  cases s with
  | mk data => simp [escape, unescape, unescapeList_escapeList]

lemma escape_injective : Function.Injective escape :=
  Function.LeftInverse.injective unescape_escape

end json_detail

-- ── Claim theorems ───────────────────────────────────────────────────────

/-- Claim C1: for every policy engine and every request context, if the
first policy (in registration order) to produce a non-Abstain outcome is a
Deny at registration index i, then evaluate returns that policy's Deny
decision, the trace has exactly i+1 steps (the i preceding Abstain steps
plus the Deny step), and policies registered after index i contribute no
trace step and are never consulted: the whole result coincides with that
of the engine truncated to its first i+1 policies. -/
theorem claim_C1_first_deny_short_circuits (e : PolicyEngine) (ctx : RequestContext)
    (i : Nat) (d : PolicyDecision) (hi : i < e.policies.length)
    (hpre : ∀ p ∈ e.policies.take i, p.evaluate ctx = none)
    (hd : (e.policies[i]).evaluate ctx = some d)
    (hden : d.effect = Effect.Deny) :
    (e.evaluate ctx).decision = d ∧
    (e.evaluate ctx).trace.steps.length = i + 1 ∧
    (e.evaluate ctx).trace.steps =
      (e.policies.take i).map abstainStep ++
        [{ policy_name := (e.policies[i]).name, outcome := StepOutcome.Deny
           reason := d.reason }] ∧
    e.evaluate ctx = PolicyEngine.evaluate { policies := e.policies.take (i + 1) } ctx := by
  obtain ⟨h1, h2, h3⟩ := evaluate_first_deny_core e ctx i d hi hpre hd hden
  refine ⟨h1, ?_, h2, h3⟩
  rw [h2]
  simp [List.length_take, Nat.min_eq_left (le_of_lt hi)]

theorem claim_C1_witness :
    ((PolicyEngine.mk [pAbstain, pDeny]).evaluate ctxSample).decision =
      { effect := Effect.Deny, policy_name := "DenyPol", reason := "denied" } ∧
    ((PolicyEngine.mk [pAbstain, pDeny]).evaluate ctxSample).trace.steps.length = 2 := by
  have h := claim_C1_first_deny_short_circuits (PolicyEngine.mk [pAbstain, pDeny]) ctxSample 1
    { effect := Effect.Deny, policy_name := "DenyPol", reason := "denied" }
    (by decide) (by decide) (by decide) (by decide)
  exact ⟨h.1, h.2.1⟩

/-- Claim C2: for every policy engine and every request context, if no
registered policy returns Deny and at least one returns Allow, then
evaluate returns the decision of the first policy (in registration order)
that returned Allow, that decision's effect is Allow, and the trace
contains exactly one step per registered policy (Allow never
short-circuits). -/
theorem claim_C2_first_allow_no_short_circuit (e : PolicyEngine) (ctx : RequestContext)
    (i : Nat) (d : PolicyDecision) (hi : i < e.policies.length)
    (hnd : ∀ p ∈ e.policies, ∀ dd, p.evaluate ctx = some dd → dd.effect ≠ Effect.Deny)
    (hpre : ∀ p ∈ e.policies.take i, p.evaluate ctx = none)
    (hd : (e.policies[i]).evaluate ctx = some d) :
    (e.evaluate ctx).decision = d ∧
    d.effect = Effect.Allow ∧
    (e.evaluate ctx).trace.steps.length = e.policies.length ∧
    (e.evaluate ctx).trace.steps = e.policies.map (stepOf ctx) := by
  obtain ⟨h1, h2, h3⟩ := evaluate_first_allow_core e ctx i d hi hnd hpre hd
  refine ⟨h1, ?_, h3, h2⟩
  have hmem : e.policies[i] ∈ e.policies := List.getElem_mem hi
  have hne := hnd _ hmem d hd
  cases he : d.effect with
  | Allow => rfl
  | Deny => exact absurd he hne

theorem claim_C2_witness :
    ((PolicyEngine.mk [pAbstain, pAllow]).evaluate ctxSample).decision =
      { effect := Effect.Allow, policy_name := "AllowPol", reason := "allowed" } ∧
    ((PolicyEngine.mk [pAbstain, pAllow]).evaluate ctxSample).trace.steps.length = 2 := by
  have hnd : ∀ p ∈ [pAbstain, pAllow], ∀ dd,
      p.evaluate ctxSample = some dd → dd.effect ≠ Effect.Deny := by
    intro p hp dd hdd
    rcases List.mem_cons.mp hp with rfl | hp2
    · simp [pAbstain] at hdd
    · rcases List.mem_singleton.mp hp2 with rfl
      simp only [pAllow] at hdd
      rcases Option.some.inj hdd.symm with rfl
      decide
  have h := claim_C2_first_allow_no_short_circuit (PolicyEngine.mk [pAbstain, pAllow])
    ctxSample 1 { effect := Effect.Allow, policy_name := "AllowPol", reason := "allowed" }
    (by decide) hnd (by decide) (by decide)
  exact ⟨h.1, h.2.2.1⟩

/-- Claim C3: for every policy engine and every request context in which no
registered policy returns Allow or Deny (in particular for an engine with
zero registered policies), evaluate returns the decision
Deny/"default"/"No policy explicitly granted access." together with the
full trace of Abstain steps. -/
theorem claim_C3_default_deny (e : PolicyEngine) (ctx : RequestContext)
    (h : ∀ p ∈ e.policies, p.evaluate ctx = none) :
    (e.evaluate ctx).decision =
      { effect := Effect.Deny, policy_name := "default"
        reason := "No policy explicitly granted access." } ∧
    (e.evaluate ctx).trace.steps = e.policies.map abstainStep := by
  have hc := evaluate_all_abstain_core e ctx h
  rw [hc]
  exact ⟨rfl, rfl⟩

theorem claim_C3_witness :
    ((PolicyEngine.mk []).evaluate ctxSample).decision =
      { effect := Effect.Deny, policy_name := "default"
        reason := "No policy explicitly granted access." } ∧
    ((PolicyEngine.mk []).evaluate ctxSample).trace.steps = [] := by
  have h := claim_C3_default_deny (PolicyEngine.mk []) ctxSample (by simp)
  exact ⟨h.1, h.2⟩

/-- Claim C4: for every compliance checker and every resource, evaluate
consults every registered rule unconditionally: the violations list is
exactly the formatted string "[name] description" of each rule whose
predicate returned false, in rule-registration order, its length is the
count of failing rules, and the report's compliant() is true iff the
violations list is empty. -/
theorem claim_C4_compliance_exhaustive (c : ComplianceChecker) (resource : Resource) :
    (c.evaluate resource).violations =
      (c.rules.filter (fun rule => ! rule.check resource)).map violationText ∧
    (c.evaluate resource).violations.length =
      c.rules.countP (fun rule => ! rule.check resource) ∧
    (c.evaluate resource).resource_id = resource.id ∧
    ((c.evaluate resource).compliant = true ↔ (c.evaluate resource).violations = []) := by
  have hv : (c.evaluate resource).violations =
      (c.rules.filter (fun rule => ! rule.check resource)).map violationText := by
    simp [ComplianceChecker.evaluate, complianceEvalLoop_eq]
  refine ⟨hv, ?_, rfl, ?_⟩
  · rw [hv, List.length_map, List.countP_eq_length_filter]
  · simp [ComplianceReport.compliant, List.isEmpty_iff]

/-- Claim C5: for every request context whose resource classification is
"restricted" and whose mfa_verified flag is false, the default policy
engine (AdminFullAccess, MFARequiredForRestricted, ProductionImmutability,
AnalystReadOnly, EngineerAccess, in that order) returns the Deny of
MFARequiredForRestricted, regardless of the principal's role — including
role "admin", whose earlier Allow does not short-circuit. -/
theorem claim_C5_mfa_denies_restricted (ctx : RequestContext)
    (hcls : ctx.resource.classification = "restricted")
    (hmfa : ctx.mfa_verified = false) :
    (default_policy_engine.evaluate ctx).decision =
      { effect := Effect.Deny, policy_name := "MFARequiredForRestricted"
        reason := "MFA required to access restricted resources." } := by
  by_cases hrole : ctx.principal.role = "admin" <;>
    simp [default_policy_engine, PolicyEngine.register_policy, PolicyEngine.evaluate,
      PolicyEngine.evalLoop, admin_full_access, mfa_required_for_restricted,
      hcls, hmfa, hrole]

theorem claim_C5_witness :
    ctxAdminRestricted.principal.role = "admin" ∧
    (default_policy_engine.evaluate ctxAdminRestricted).decision =
      { effect := Effect.Deny, policy_name := "MFARequiredForRestricted"
        reason := "MFA required to access restricted resources." } :=
  ⟨rfl, claim_C5_mfa_denies_restricted ctxAdminRestricted rfl rfl⟩

/-- Claim C6: the projector's string escaping is lossless: escapeChar
rewrites exactly the five characters double-quote, backslash, newline,
carriage return and tab to two-character backslash sequences, leaves every
other character unchanged, escape is injective, and the unescape function
satisfies unescape (escape s) = s for every string s. -/
theorem claim_C6_escape_roundtrip :
    (json_detail.escapeChar '"' = ['\\', '"'] ∧
     json_detail.escapeChar '\\' = ['\\', '\\'] ∧
     json_detail.escapeChar '\n' = ['\\', 'n'] ∧
     json_detail.escapeChar '\r' = ['\\', 'r'] ∧
     json_detail.escapeChar '\t' = ['\\', 't']) ∧
    (∀ c : Char, c ≠ '"' → c ≠ '\\' → c ≠ '\n' → c ≠ '\r' → c ≠ '\t' →
      json_detail.escapeChar c = [c]) ∧
    Function.Injective json_detail.escape ∧
    (∀ s : String, json_detail.unescape (json_detail.escape s) = s) := by
  refine ⟨⟨rfl, rfl, rfl, rfl, rfl⟩, ?_, json_detail.escape_injective,
    json_detail.unescape_escape⟩
  intro c h1 h2 h3 h4 h5
  simp [json_detail.escapeChar, h1, h2, h3, h4, h5]

theorem claim_C6_witness :
    json_detail.unescape (json_detail.escape "a\"b\\c\nd\re\tf") = "a\"b\\c\nd\re\tf" ∧
    json_detail.escapeChar 'x' = ['x'] :=
  ⟨claim_C6_escape_roundtrip.2.2.2 _,
   claim_C6_escape_roundtrip.2.1 'x' (by decide) (by decide) (by decide) (by decide)
     (by decide)⟩

/-- Claim C7 counterexample: it is not the case that in every trace every
step's reason is empty iff its outcome is Abstain — a host-supplied policy
that allows with an empty reason produces an Allow step whose reason is
the empty string. -/
theorem claim_C7_counterexample :
    ¬ (∀ (e : PolicyEngine) (ctx : RequestContext),
        ∀ s ∈ (e.evaluate ctx).trace.steps,
          (s.reason = "" ↔ s.outcome = StepOutcome.Abstain)) := by
  intro h
  have hs := h (PolicyEngine.mk [pEmptyReason]) ctxSample
    { policy_name := "EmptyReasonPol", outcome := StepOutcome.Allow, reason := "" }
    (by decide)
  exact absurd (hs.mp rfl) (by decide)

/-- Claim C7 (amended): in every trace returned by PolicyEngine::evaluate,
every step with outcome Abstain has an empty reason; Allow and Deny steps
carry the policy's returned reason verbatim, which a host-supplied policy
may leave empty, so the converse direction does not hold in general. -/
theorem claim_C7_abstain_reason_empty (e : PolicyEngine) (ctx : RequestContext) :
    ∀ s ∈ (e.evaluate ctx).trace.steps,
      s.outcome = StepOutcome.Abstain → s.reason = "" := by
  have h := evalLoop_abstain_reason ctx e.policies [] none (by simp)
  intro s hs habs
  exact h s hs habs

theorem claim_C7_witness :
    ({ policy_name := "AbstainPol", outcome := StepOutcome.Abstain, reason := "" }
      : PolicyStep).reason = "" :=
  claim_C7_abstain_reason_empty (PolicyEngine.mk [pAbstain]) ctxSample
    { policy_name := "AbstainPol", outcome := StepOutcome.Abstain, reason := "" }
    (by decide) rfl

/-- Claim C8 counterexample: a registered policy named "Registered" whose
returned Deny self-reports the name "Mismatched" makes the engine
short-circuit with a Decision whose policy_name is "Mismatched", while the
trace step records the registered name "Registered" — so the returned
Decision's policy_name does not always equal the registered name. -/
theorem claim_C8_counterexample :
    ((PolicyEngine.mk [pMismatch]).evaluate ctxSample).decision.policy_name
      = "Mismatched" ∧
    ((PolicyEngine.mk [pMismatch]).evaluate ctxSample).trace.steps =
      [{ policy_name := "Registered", outcome := StepOutcome.Deny
         reason := "mismatch reason" }] ∧
    ("Mismatched" : String) ≠ "Registered" := by
  refine ⟨rfl, rfl, by decide⟩

/-- Claim C8 (amended): when the engine short-circuits on a Deny — the
first denying policy, at index i, after earlier policies that allowed or
abstained but did not deny — the returned Decision is that policy's
returned PolicyDecision verbatim, and the trace step records the
registered name; whenever the policy's self-reported policy_name equals
its registered name (as for every built-in policy), the returned
Decision's policy_name therefore equals the registered name recorded in
the trace step. -/
theorem claim_C8_deny_policy_name (e : PolicyEngine) (ctx : RequestContext)
    (i : Nat) (d : PolicyDecision) (hi : i < e.policies.length)
    (hpre : ∀ p ∈ e.policies.take i, ∀ dd,
      p.evaluate ctx = some dd → dd.effect ≠ Effect.Deny)
    (hd : (e.policies[i]).evaluate ctx = some d)
    (hden : d.effect = Effect.Deny)
    (hname : d.policy_name = (e.policies[i]).name) :
    (e.evaluate ctx).decision = d ∧
    (e.evaluate ctx).decision.policy_name = (e.policies[i]).name ∧
    (e.evaluate ctx).trace.steps.getLast? =
      some { policy_name := (e.policies[i]).name, outcome := StepOutcome.Deny
             reason := d.reason } := by
  have hloop : PolicyEngine.evalLoop ctx e.policies [] none =
      (d, [] ++ (e.policies.take i).map (stepOf ctx) ++
        [{ policy_name := (e.policies[i]).name, outcome := StepOutcome.Deny
           reason := d.reason }]) := by
    conv_lhs => rw [policies_split e i hi]
    exact evalLoop_first_deny_mixed ctx (e.policies.take i) (e.policies[i])
      (e.policies.drop (i + 1)) [] none d hpre hd hden
  have h1 : (e.evaluate ctx).decision = d := by
    simp [PolicyEngine.evaluate, hloop]
  refine ⟨h1, by rw [h1, hname], ?_⟩
  have h2 : (e.evaluate ctx).trace.steps =
      (e.policies.take i).map (stepOf ctx) ++
        [{ policy_name := (e.policies[i]).name, outcome := StepOutcome.Deny
           reason := d.reason }] := by
    simp [PolicyEngine.evaluate, hloop]
  rw [h2, List.getLast?_concat]

theorem claim_C8_witness :
    ((PolicyEngine.mk [pAllow, pDeny]).evaluate ctxSample).decision.policy_name
      = "DenyPol" ∧
    ((PolicyEngine.mk [pAllow, pDeny]).evaluate ctxSample).trace.steps.getLast? =
      some { policy_name := "DenyPol", outcome := StepOutcome.Deny, reason := "denied" } := by
  have hpre : ∀ p ∈ [pAllow, pDeny].take 1, ∀ dd,
      p.evaluate ctxSample = some dd → dd.effect ≠ Effect.Deny := by
    intro p hp dd hdd
    rcases List.mem_singleton.mp hp with rfl
    simp only [pAllow] at hdd
    rcases Option.some.inj hdd.symm with rfl
    decide
  have h := claim_C8_deny_policy_name (PolicyEngine.mk [pAllow, pDeny]) ctxSample 1
    { effect := Effect.Deny, policy_name := "DenyPol", reason := "denied" }
    (by decide) hpre (by decide) (by decide) (by decide)
  exact ⟨h.2.1, h.2.2⟩

/-- Claim C9: for every engine and every request context, the trace
returned by evaluate carries a snapshot of the input: trace.context equals
the input RequestContext field-for-field (principal, resource including
its tag map, action, environment, mfa_verified), stored by value. -/
theorem claim_C9_trace_context_snapshot (e : PolicyEngine) (ctx : RequestContext) :
    (e.evaluate ctx).trace.context = ctx ∧
    (e.evaluate ctx).trace.context.principal = ctx.principal ∧
    (e.evaluate ctx).trace.context.resource = ctx.resource ∧
    (e.evaluate ctx).trace.context.resource.tags = ctx.resource.tags ∧
    (e.evaluate ctx).trace.context.action = ctx.action ∧
    (e.evaluate ctx).trace.context.environment = ctx.environment ∧
    (e.evaluate ctx).trace.context.mfa_verified = ctx.mfa_verified :=
  ⟨rfl, rfl, rfl, rfl, rfl, rfl, rfl⟩

/-- Claim C10: in every trace returned by PolicyEngine::evaluate, at most
one step has outcome Deny; a Deny step, when present, is the last step of
the trace and forces the returned decision's effect to be Deny; and every
step that is not a Deny is an Allow or an Abstain. -/
theorem claim_C10_deny_unique_and_last (e : PolicyEngine) (ctx : RequestContext) :
    (e.evaluate ctx).trace.steps.countP (fun s => s.outcome == StepOutcome.Deny) ≤ 1 ∧
    (∀ s ∈ (e.evaluate ctx).trace.steps.dropLast, s.outcome ≠ StepOutcome.Deny) ∧
    (∀ s ∈ (e.evaluate ctx).trace.steps, s.outcome = StepOutcome.Deny →
      (e.evaluate ctx).trace.steps.getLast? = some s ∧
      (e.evaluate ctx).decision.effect = Effect.Deny) ∧
    (∀ s ∈ (e.evaluate ctx).trace.steps, s.outcome ≠ StepOutcome.Deny →
      s.outcome = StepOutcome.Allow ∨ s.outcome = StepOutcome.Abstain) := by
  have h := evalLoop_deny_invariant ctx e.policies [] none (by simp)
  have hdrop : ∀ s ∈ (e.evaluate ctx).trace.steps.dropLast,
      s.outcome ≠ StepOutcome.Deny := h.1
  refine ⟨?_, hdrop, h.2, ?_⟩
  · refine countP_le_one_of_dropLast _ _ (fun s hs => ?_)
    have := hdrop s hs
    simpa using this
  · intro s _hs hne
    cases hso : s.outcome with
    | Allow => exact Or.inl rfl
    | Deny => exact absurd hso hne
    | Abstain => exact Or.inr rfl

theorem claim_C10_witness :
    ((PolicyEngine.mk [pAllow, pDeny]).evaluate ctxSample).trace.steps.getLast? =
      some { policy_name := "DenyPol", outcome := StepOutcome.Deny, reason := "denied" } ∧
    ((PolicyEngine.mk [pAllow, pDeny]).evaluate ctxSample).decision.effect = Effect.Deny := by
  have h := (claim_C10_deny_unique_and_last (PolicyEngine.mk [pAllow, pDeny]) ctxSample).2.2.1
    { policy_name := "DenyPol", outcome := StepOutcome.Deny, reason := "denied" }
    (by decide) rfl
  exact h

end governance

